import Mathlib

/-!
Verification of the UE documentation scraper
(src/Tools/UEDocsScraper/ue_docs_scraper.py).

The development shallowly embeds the scraper: the parsed markup tree is an
inductive `Html` value (the source operates on the tree produced by its HTML
parser), the network is an oracle mapping attempt numbers to outcomes, and the
while-loop of the crawl engine is a fuel-indexed step function whose invariants
are proved for every fuel value.  Sleeps, cache writes, fetch calls and
frontier insertions are recorded in explicit logs so that timing and
at-most-once properties become statements about the produced traces.
-/

namespace UEDocs

/-! ## String utilities mirroring the Python string operations used -/

/-- Python `sub in s` (substring containment), on the character list. -/
def strContainsAux (pat : List Char) : List Char → Bool
  | [] => pat.isEmpty
  | c :: rest => pat.isPrefixOf (c :: rest) || strContainsAux pat rest

/-- Python `pat in s` for strings. -/
def strContains (s pat : String) : Bool :=
  strContainsAux pat.data s.data

/-- Python `s.startswith(p)`. -/
def strStartsWith (s p : String) : Bool :=
  p.data.isPrefixOf s.data

/-- Python `s.split(sep)[0]` for a one-character separator: the prefix of `s`
before the first occurrence of `sep`. -/
def takeBefore (s : String) (sep : Char) : String :=
  String.mk (s.data.takeWhile (fun c => c ≠ sep))

/-- Python `s.strip()`: whitespace removed from both ends, at the character
list level. -/
def pyStrip (s : String) : String :=
  String.mk (((s.data.dropWhile Char.isWhitespace).reverse.dropWhile Char.isWhitespace).reverse)

/-! ## URL resolution

The source resolves references with the standard library function
`urllib.parse.urljoin`, which lives outside the repository. -/

/-- Scheme of a URL: the part before the first colon. -/
def urlScheme (u : String) : String :=
  String.mk (u.data.takeWhile (fun c => c ≠ ':'))

/-- Origin of a URL: scheme plus host, i.e. everything up to the first slash
after the scheme separator. -/
def urlOrigin (u : String) : String :=
  match u.splitOn "://" with
  | scheme :: rest :: _ => scheme ++ "://" ++ String.mk (rest.data.takeWhile (fun c => c ≠ '/'))
  | _ => u

/-- Directory of a URL: everything up to and including the last slash. -/
def urlDir (u : String) : String :=
  match (u.splitOn "/").dropLast with
  | [] => u
  | parts => String.intercalate "/" parts ++ "/"

/-- Modelled from the spec: "resolve relative references against `baseURL`".
The source delegates resolution to the standard library `urljoin`, which is
not part of the repository.  The model covers the reference shapes the source
feeds it: scheme-absolute references are returned unchanged, protocol-relative
references take the base scheme, root-relative references are resolved against
the base origin, and the remaining references against the base directory. -/
def urljoin (base href : String) : String :=
  if strStartsWith href "http://" || strStartsWith href "https://" then href
  else if strStartsWith href "//" then urlScheme base ++ ":" ++ href
  else if strStartsWith href "/" then urlOrigin base ++ href
  else urlDir base ++ href

/-! ## Configuration constants of the scraper -/

def BASE_URL : String := "https://dev.epicgames.com/documentation/en-us/unreal-engine"
def REQUEST_DELAY : Nat := 1
def MAX_RETRIES : Nat := 3

/-! ## Fetcher (`UEDocsScraper._fetch_page`)

A network attempt either yields a body (status below 400) or raises a
`RequestException`: `raise_for_status` turns every 4xx/5xx response into an
exception, and timeouts/connection errors raise directly.  The oracle
`net : Nat → FetchOutcome` gives the outcome of each attempt number. -/

inductive FetchOutcome where
  | success (body : String)
  | httpError (status : Nat)
  | netError
deriving DecidableEq

/-- The body an attempt produced, if it succeeded.  The source code inspects
nothing else about a failure: every `RequestException` is handled identically,
whatever the status code. -/
def FetchOutcome.body? : FetchOutcome → Option String
  | .success b => some b
  | .httpError _ => none
  | .netError => none

/-- One sleep performed by the fetcher: the politeness delay after a
successful network fetch, or the exponential backoff between retries. -/
inductive SleepEvent where
  | politeness (secs : Nat)
  | backoff (secs : Nat)
deriving DecidableEq

/-- Observable result of `_fetch_page`: the returned body (`none` models the
Python `None` return after retry exhaustion), the number of network attempts
made, the sleeps performed in order, and the cache writes performed. -/
structure FetchResult where
  body : Option String
  networkAttempts : Nat
  sleeps : List SleepEvent
  cacheWrites : List (String × String)
deriving DecidableEq

/-- The retry loop `for attempt in range(MAX_RETRIES)` of `_fetch_page`,
running from attempt number `attempt` with `remaining` iterations left
(the entry point uses `attempt = 0`, `remaining = MAX_RETRIES`).
On success: cache write (when caching is on), one politeness sleep, return the
body.  On any exception: sleep `2 ^ attempt` if this is not the final attempt,
then retry; after the final attempt, return `None`. -/
def fetchAttemptsFrom (useCache : Bool) (net : Nat → FetchOutcome) (url : String) :
    Nat → Nat → FetchResult
  | _, 0 => { body := none, networkAttempts := 0, sleeps := [], cacheWrites := [] }
  | attempt, r + 1 =>
    match (net attempt).body? with
    | some b =>
      { body := some b
        networkAttempts := 1
        sleeps := [.politeness REQUEST_DELAY]
        cacheWrites := if useCache then [(url, b)] else [] }
    | none =>
      let rest := fetchAttemptsFrom useCache net url (attempt + 1) r
      { body := rest.body
        networkAttempts := 1 + rest.networkAttempts
        sleeps := (if attempt < MAX_RETRIES - 1 then [SleepEvent.backoff (2 ^ attempt)] else [])
          ++ rest.sleeps
        cacheWrites := rest.cacheWrites }

/-- `UEDocsScraper._fetch_page`: consult the cache first (when caching is on),
otherwise run the retry loop. -/
def fetchPage (useCache : Bool) (cache : String → Option String)
    (net : Nat → FetchOutcome) (url : String) : FetchResult :=
  if useCache then
    match cache url with
    | some body => { body := some body, networkAttempts := 0, sleeps := [], cacheWrites := [] }
    | none => fetchAttemptsFrom useCache net url 0 MAX_RETRIES
  else fetchAttemptsFrom useCache net url 0 MAX_RETRIES

/-- Number of politeness sleeps in a sleep trace. -/
def countPoliteness (sleeps : List SleepEvent) : Nat :=
  sleeps.countP (fun s => match s with | .politeness _ => true | .backoff _ => false)

/-! ## The parsed markup tree

The converter operates on the tree produced by the HTML parser: elements with
a tag, attributes and children, and text nodes.  The multi-valued `class`
attribute is kept in its raw space-separated form. -/

inductive Html where
  | text (s : String)
  | elem (tag : String) (attrs : List (String × String)) (children : List Html)

/-- Direct children of a node (`element.children`). -/
def Html.childList : Html → List Html
  | .text _ => []
  | .elem _ _ cs => cs

/-- Attribute lookup, `element.get(key)`. -/
def Html.getAttr (e : Html) (key : String) : Option String :=
  match e with
  | .text _ => none
  | .elem _ attrs _ => attrs.lookup key

/-- Tag of an element (`element.name`); text nodes have no tag. -/
def Html.tag? : Html → Option String
  | .text _ => none
  | .elem t _ _ => some t

def tagIs (t : String) (e : Html) : Bool :=
  e.tag? == some t

/-- The raw class string of an element, `" ".join(element.get("class", []))`. -/
def classStr (e : Html) : String :=
  (e.getAttr "class").getD ""

/-- The class token list of an element (`element.get("class", [])`). -/
def classList (e : Html) : List String :=
  ((classStr e).splitOn " ").filter (fun c => c ≠ "")

mutual
/-- `element.get_text()`: concatenation of every descendant text node. -/
def getText : Html → String
  | .text s => s
  | .elem _ _ cs => getTextList cs

def getTextList : List Html → String
  | [] => ""
  | c :: cs => getText c ++ getTextList cs
end

mutual
/-- `element.find_all(p)`: every matching descendant, in document order
(matching descendants of matching elements included). -/
def findAllDesc (p : Html → Bool) : Html → List Html
  | .text _ => []
  | .elem _ _ cs => findAllDescList p cs

def findAllDescList (p : Html → Bool) : List Html → List Html
  | [] => []
  | c :: cs =>
    (if p c then [c] else []) ++ findAllDesc p c ++ findAllDescList p cs
end

mutual
/-- `element.find(p)`: first matching descendant in document order. -/
def findFirst (p : Html → Bool) : Html → Option Html
  | .text _ => none
  | .elem _ _ cs => findFirstList p cs

def findFirstList (p : Html → Bool) : List Html → Option Html
  | [] => none
  | c :: cs =>
    if p c then some c
    else
      match findFirst p c with
      | some r => some r
      | none => findFirstList p cs
end

mutual
/-- Removal of every descendant element with one of the given tags
(`element.decompose()` over `content.find_all([...])`). -/
def removeTags (tags : List String) : Html → Html
  | .text s => .text s
  | .elem t a cs => .elem t a (removeTagsList tags cs)

def removeTagsList (tags : List String) : List Html → List Html
  | [] => []
  | c :: cs =>
    match c.tag? with
    | some t =>
      if t ∈ tags then removeTagsList tags cs
      else removeTags tags c :: removeTagsList tags cs
    | none => c :: removeTagsList tags cs
end

/-- Whether an element matches one of the pruned selectors
`.breadcrumb`, `.sidebar`, `.toc`, `.navigation`, or role equal to
navigation. -/
def matchesNoiseSelector (e : Html) : Bool :=
  ("breadcrumb" ∈ classList e) || ("sidebar" ∈ classList e) ||
  ("toc" ∈ classList e) || ("navigation" ∈ classList e) ||
  (e.getAttr "role" == some "navigation")

mutual
/-- Removal of every descendant matching a pruned selector. -/
def removeNoise : Html → Html
  | .text s => .text s
  | .elem t a cs => .elem t a (removeNoiseList cs)

def removeNoiseList : List Html → List Html
  | [] => []
  | c :: cs =>
    if matchesNoiseSelector c then removeNoiseList cs
    else removeNoise c :: removeNoiseList cs
end

/-! ## Document converter (`_html_to_markdown`, `_process_element`,
`_get_inline_text`, `_process_table`) -/

/-- Resolution of an `href`/`src` as the converter performs it: resolve
against the base URL unless the reference is already scheme-absolute. -/
def resolveRef (baseUrl href : String) : String :=
  if !(strStartsWith href "http://" || strStartsWith href "https://") then
    urljoin baseUrl href
  else href

/-- One part of `_get_inline_text`: the rendering of one child node. -/
def inlinePart (baseUrl : String) (child : Html) : String :=
  match child.tag? with
  | none => getText child
  | some tag =>
    if tag = "strong" ∨ tag = "b" then "**" ++ getText child ++ "**"
    else if tag = "em" ∨ tag = "i" then "*" ++ getText child ++ "*"
    else if tag = "code" then "`" ++ getText child ++ "`"
    else if tag = "a" then
      let href := (child.getAttr "href").getD ""
      let text := getText child
      if href ≠ "" then "[" ++ text ++ "](" ++ resolveRef baseUrl href ++ ")"
      else text
    else getText child

/-- `_get_inline_text`: text with inline formatting, concatenated over the
children in order and stripped. -/
def getInlineText (e : Html) (baseUrl : String) : String :=
  pyStrip (String.join (e.childList.map (inlinePart baseUrl)))

/-- First language class that matches, mirroring the loop over
`code_elem.get("class", [])` with its two match forms and `break`. -/
def findLangClass : List String → String
  | [] => ""
  | cls :: rest =>
    if strStartsWith cls "language-" then cls.replace "language-" ""
    else if cls ∈ ["cpp", "c++", "python", "blueprint", "ini", "json"] then cls
    else findLangClass rest

/-- Language tag of a `pre` block: from the class of the first nested `code`
element, when that element has a (non-empty, hence truthy) class attribute. -/
def preLang (e : Html) : String :=
  match findFirst (tagIs "code") e with
  | none => ""
  | some codeElem =>
    match codeElem.getAttr "class" with
    | none => ""
    | some clsStr =>
      if classList codeElem = [] then ""
      else findLangClass ((clsStr.splitOn " ").filter (fun c => c ≠ ""))

/-- `_process_table`: first `tr` row gives the headers, the remaining rows the
body; each row is emitted with exactly the cells it has. -/
def processTable (table : Html) (lines : List String) : List String :=
  let lines := lines ++ [""]
  match findAllDesc (fun c => tagIs "tr" c) table with
  | [] => lines
  | headerRow :: bodyRows =>
    let headers := (findAllDesc (fun c => tagIs "th" c || tagIs "td" c) headerRow).map
      (fun th => pyStrip (getText th))
    let lines :=
      if headers ≠ [] then
        lines ++ ["| " ++ String.intercalate " | " headers ++ " |",
                  "| " ++ String.intercalate " | " (List.replicate headers.length "---") ++ " |"]
      else lines
    let lines := bodyRows.foldl (fun ls row =>
      let cells := (findAllDesc (fun c => tagIs "td" c || tagIs "th" c) row).map
        (fun td => pyStrip (getText td))
      if cells ≠ [] then ls ++ ["| " ++ String.intercalate " | " cells ++ " |"] else ls) lines
    lines ++ [""]

def HEADING_TAGS : List String := ["h1", "h2", "h3", "h4", "h5", "h6"]

def CONTAINER_TAGS : List String := ["div", "section", "article", "main", "span", "body"]

/-- `int(tag[1])` for a heading tag. -/
def headingLevel (tag : String) : Nat :=
  (tag.drop 1).toNat?.getD 0

mutual
/-- `_process_element`: recursive dispatch on the node.  The Python method
reads `element.parent.name` in the inline-code case; since recursion into
children happens only for container tags, the parent tag is threaded as an
argument (the root call uses the empty string).  The `depth` parameter of the
source is passed but never read, and is omitted. -/
def processElement (parentTag : String) (e : Html) (lines : List String)
    (baseUrl : String) : List String :=
  match e with
  | .text s =>
    let t := pyStrip s
    if t ≠ "" then lines ++ [t] else lines
  | .elem tag attrs cs =>
    let e := Html.elem tag attrs cs
    if tag ∈ HEADING_TAGS then
      let t := pyStrip (getText e)
      if t ≠ "" then
        lines ++ ["", String.mk (List.replicate (headingLevel tag) '#') ++ " " ++ t, ""]
      else lines
    else if tag = "p" then
      let t := getInlineText e baseUrl
      if pyStrip t ≠ "" then lines ++ ["", t, ""] else lines
    else if tag = "pre" then
      lines ++ ["", "```" ++ preLang e, pyStrip (getText e), "```", ""]
    else if tag = "code" ∧ parentTag ≠ "pre" then
      lines ++ ["`" ++ getText e ++ "`"]
    else if tag = "ul" ∨ tag = "ol" then
      let lis := cs.filter (tagIs "li")
      let items := lis.enum.map (fun p =>
        (if tag = "ol" then toString (p.1 + 1) ++ "." else "-") ++ " "
          ++ getInlineText p.2 baseUrl)
      lines ++ [""] ++ items ++ [""]
    else if tag = "table" then
      processTable e lines
    else if tag = "a" then
      let href := (e.getAttr "href").getD ""
      let t := pyStrip (getText e)
      if href ≠ "" ∧ t ≠ "" then
        lines ++ ["[" ++ t ++ "](" ++ resolveRef baseUrl href ++ ")"]
      else lines
    else if tag = "img" then
      let alt := (e.getAttr "alt").getD "Image"
      let src := (e.getAttr "src").getD ""
      if src ≠ "" then
        lines ++ ["![" ++ alt ++ "](" ++ resolveRef baseUrl src ++ ")"]
      else lines
    else if tag = "blockquote" ∨ (tag = "div" ∧ strContains (classStr e) "callout") then
      let t := pyStrip (getText e)
      if t ≠ "" then
        lines ++ [""]
          ++ (((t.splitOn "\n").filter (fun l => pyStrip l ≠ "")).map (fun l => "> " ++ pyStrip l))
          ++ [""]
      else lines
    else if tag ∈ CONTAINER_TAGS then
      processChildren tag cs lines baseUrl
    else
      let t := pyStrip (getText e)
      if t ≠ "" then lines ++ [t] else lines

def processChildren (parentTag : String) (cs : List Html) (lines : List String)
    (baseUrl : String) : List String :=
  match cs with
  | [] => lines
  | c :: rest => processChildren parentTag rest (processElement parentTag c lines baseUrl) baseUrl
end

theorem dropWhile_length_le (p : α → Bool) (l : List α) :
    (l.dropWhile p).length ≤ l.length := by
  induction l with
  | nil => simp [List.dropWhile]
  | cons a l ih =>
    simp only [List.dropWhile]
    cases p a
    · simp
    · simpa using Nat.le_succ_of_le ih


/-- `re.sub(r"\n\x7b3,\x7d", "\n\n", s)`: every run of three or more newlines
collapses to two. -/
def collapseNewlinesAux : List Char → List Char
  | [] => []
  | c :: rest =>
    if c = '\n' then
      let run := rest.takeWhile (fun d => d = '\n')
      let rest2 := rest.dropWhile (fun d => d = '\n')
      (if run.length + 1 ≥ 3 then ['\n', '\n'] else c :: run) ++ collapseNewlinesAux rest2
    else c :: collapseNewlinesAux rest
termination_by l => l.length
decreasing_by
  · simp only [List.length_cons]
    exact Nat.lt_succ_of_le (dropWhile_length_le _ _)
  · simp

def collapseNewlines (s : String) : String :=
  String.mk (collapseNewlinesAux s.data)

/-- `_html_to_markdown`: select the content root, prune noise, process the
tree, join and clean up. -/
def htmlToMarkdown (soup : Html) (baseUrl : String) : String :=
  let content :=
    match findFirst (tagIs "main") soup with
    | some c => c
    | none =>
      match findFirst (tagIs "article") soup with
      | some c => c
      | none =>
        match findFirst (fun e => "content" ∈ classList e) soup with
        | some c => c
        | none =>
          match findFirst (tagIs "body") soup with
          | some c => c
          | none => soup
  let content := removeNoise (removeTags ["script", "style", "nav", "footer", "header", "aside"] content)
  pyStrip (collapseNewlines (String.intercalate "\n" (processElement "" content [] baseUrl)))

/-! ## Link extractor (`_extract_links`) -/

/-- The `href` values of every anchor with an `href` attribute, in document
order (`soup.find_all("a", href=True)`). -/
def anchorHrefs (doc : Html) : List String :=
  (findAllDesc (fun e => tagIs "a" e && (e.getAttr "href").isSome) doc).map
    (fun a => (a.getAttr "href").getD "")

/-- The filtering loop of `_extract_links` over the collected `href` values,
with the accumulated result list.  A reference is kept when it mentions the
documentation path or is root-relative; after resolution it must contain the
substring `dev.epicgames.com/documentation`; the fragment and query are then
stripped, and the result is appended unless already present. -/
def extractLinksFrom (base : String) : List String → List String → List String
  | [], acc => acc
  | href :: rest, acc =>
    let acc :=
      if strContains href "/documentation/en-us/unreal-engine" || strStartsWith href "/" then
        let fullUrl := urljoin base href
        if strContains fullUrl "dev.epicgames.com/documentation" then
          let cleaned := takeBefore (takeBefore fullUrl '#') '?'
          if cleaned ∈ acc then acc else acc ++ [cleaned]
        else acc
      else acc
    extractLinksFrom base rest acc

/-- `_extract_links`. -/
def extractLinks (doc : Html) (base : String) : List String :=
  extractLinksFrom base (anchorHrefs doc) []

/-! ## Page scraping (`scrape_page`) -/

/-- One scraped page as `scrape_page` returns it.  The wall-clock
`scraped_at` timestamp is not modelled. -/
structure PageData where
  url : String
  title : String
  markdown : String
  links : List String
deriving DecidableEq

/-- Title extraction of `scrape_page`: first `h1`, else the `title` tag, else
Untitled, with the site suffix removed. -/
def pageTitle (soup : Html) : String :=
  let titleElem :=
    match findFirst (tagIs "h1") soup with
    | some e => some e
    | none => findFirst (tagIs "title") soup
  match titleElem with
  | none => "Untitled"
  | some e => (pyStrip (getText e)).replace " | Unreal Engine Documentation" ""

/-- `scrape_page`: fetch the raw body (the fetch layer is abstracted as
`fetch : String → Option String`, the return value of `_fetch_page`), bail out
on a falsy body (`None` or the empty string), else parse and build the page.
`parse` stands for the HTML parser applied to the raw body. -/
def scrapePageWith (parse : String → Html) (fetch : String → Option String)
    (url : String) : Option PageData :=
  match fetch url with
  | none => none
  | some html =>
    if html = "" then none
    else
      let soup := parse html
      some { url := url
             title := pageTitle soup
             markdown := htmlToMarkdown soup url
             links := extractLinks soup url }

/-! ## Crawl engine (`scrape_topic`)

The `while to_visit` loop is modelled as a fuel-indexed function on an
explicit crawl state.  The fields `fetchLog`, `failedLog` and `enqueueLog` are
observation logs recording, respectively, every call of `scrape_page`, every
visited URL whose scrape produced no page, and every entry appended to the
frontier; they never influence `toVisit`, `visited` or `scraped`. -/

structure CrawlState where
  toVisit : List (String × Nat)
  visited : List String
  scraped : List PageData
  fetchLog : List (String × Nat)
  failedLog : List String
  enqueueLog : List (String × Nat)
deriving DecidableEq

/-- One `while to_visit:` loop, driven by fuel.  The Python `visited` set is
modelled as a list; insertions happen only after a failed membership test, so
the list stays duplicate-free. -/
def crawlLoop (scrapePg : String → Option PageData) (maxDepth : Nat) :
    Nat → CrawlState → CrawlState
  | 0, st => st
  | fuel + 1, st =>
    match st.toVisit with
    | [] => st
    | (url, d) :: rest =>
      if url ∈ st.visited then
        crawlLoop scrapePg maxDepth fuel { st with toVisit := rest }
      else if maxDepth < d then
        crawlLoop scrapePg maxDepth fuel { st with toVisit := rest }
      else
        let visited := st.visited ++ [url]
        match scrapePg url with
        | none =>
          crawlLoop scrapePg maxDepth fuel
            { st with
              toVisit := rest
              visited := visited
              fetchLog := st.fetchLog ++ [(url, d)]
              failedLog := st.failedLog ++ [url] }
        | some pg =>
          let newEntries :=
            if d < maxDepth then
              (pg.links.filter (fun l => l ∉ visited)).map (fun l => (l, d + 1))
            else []
          crawlLoop scrapePg maxDepth fuel
            { st with
              toVisit := rest ++ newEntries
              visited := visited
              scraped := st.scraped ++ [pg]
              fetchLog := st.fetchLog ++ [(url, d)]
              enqueueLog := st.enqueueLog ++ newEntries }

/-- The crawl session started on `startUrl`: initial frontier
`[(startUrl, 0)]`, everything else empty. -/
def crawlRun (scrapePg : String → Option PageData) (maxDepth : Nat)
    (startUrl : String) (fuel : Nat) : CrawlState :=
  crawlLoop scrapePg maxDepth fuel
    { toVisit := [(startUrl, 0)], visited := [], scraped := []
      fetchLog := [], failedLog := [], enqueueLog := [] }

/-- `scrape_topic` builds the start URL from the topic slug and returns the
`scraped` list of the crawl; the shortcut table lookup is kept abstract by
taking the already-resolved slug (the table is an external static mapping). -/
def scrapeTopic (scrapePg : String → Option PageData) (slug : String)
    (maxDepth : Nat) (fuel : Nat) : List PageData :=
  (crawlRun scrapePg maxDepth (BASE_URL ++ "/" ++ slug) fuel).scraped

/-! ## Fetcher lemmas -/

theorem countPoliteness_append (l1 l2 : List SleepEvent) :
    countPoliteness (l1 ++ l2) = countPoliteness l1 + countPoliteness l2 := by
  simp [countPoliteness, List.countP_append]

/-- The retry loop performs exactly one politeness sleep when it returns a
body and none when it fails, whatever the attempt window. -/
theorem fetchAttemptsFrom_politeness (useCache : Bool) (net : Nat → FetchOutcome)
    (url : String) : ∀ remaining attempt,
    (((fetchAttemptsFrom useCache net url attempt remaining).body.isSome = true →
        countPoliteness (fetchAttemptsFrom useCache net url attempt remaining).sleeps = 1) ∧
     ((fetchAttemptsFrom useCache net url attempt remaining).body = none →
        countPoliteness (fetchAttemptsFrom useCache net url attempt remaining).sleeps = 0)) := by
  intro remaining
  induction remaining with
  | zero => intro attempt; simp [fetchAttemptsFrom, countPoliteness]
  | succ r ih =>
    intro attempt
    cases hb : (net attempt).body? with
    | some b =>
      constructor
      · intro _
        simp [fetchAttemptsFrom, hb, countPoliteness]
      · intro hnone
        simp [fetchAttemptsFrom, hb] at hnone
    | none =>
      constructor
      · intro hsome
        simp only [fetchAttemptsFrom, hb] at hsome ⊢
        rw [countPoliteness_append]
        have h1 : countPoliteness
            (if attempt < MAX_RETRIES - 1 then [SleepEvent.backoff (2 ^ attempt)] else []) = 0 := by
          split <;> simp [countPoliteness]
        rw [h1, Nat.zero_add]
        exact (ih (attempt + 1)).1 hsome
      · intro hnone
        simp only [fetchAttemptsFrom, hb] at hnone ⊢
        rw [countPoliteness_append]
        have h1 : countPoliteness
            (if attempt < MAX_RETRIES - 1 then [SleepEvent.backoff (2 ^ attempt)] else []) = 0 := by
          split <;> simp [countPoliteness]
        rw [h1, Nat.zero_add]
        exact (ih (attempt + 1)).2 hnone

/-- C5: against an endpoint whose every network attempt fails, a fetch with
`MAX_RETRIES = 3` makes exactly 3 network attempts, sleeps `2 ^ attempt`
seconds between consecutive attempts (`2 ^ 0` then `2 ^ 1`) and not after the
final one, and returns no body (the Python `None`, the failure outcome of the
fetch). -/
theorem C5_retry_bound (useCache : Bool) (cache : String → Option String)
    (net : Nat → FetchOutcome) (url : String) (hmiss : cache url = none)
    (hfail : ∀ i, (net i).body? = none) :
    fetchPage useCache cache net url =
      { body := none, networkAttempts := 3,
        sleeps := [.backoff 1, .backoff 2], cacheWrites := [] } := by
  have h0 := hfail 0; have h1 := hfail 1; have h2 := hfail 2
  cases useCache <;>
    simp [fetchPage, hmiss, fetchAttemptsFrom, h0, h1, h2, MAX_RETRIES, REQUEST_DELAY]

theorem C5_retry_bound_witness :
    fetchPage false (fun _ => none) (fun _ => .netError) "https://dev.epicgames.com/documentation/en-us/unreal-engine/x" =
      { body := none, networkAttempts := 3,
        sleeps := [.backoff 1, .backoff 2], cacheWrites := [] } :=
  C5_retry_bound false (fun _ => none) (fun _ => .netError) _ rfl (fun _ => rfl)

/-- C6: a fetch of a URL present in the cache (with caching enabled) returns
the cached body with zero network attempts and zero sleeps of any kind, while
a fetch that goes to the network and succeeds performs the politeness sleep
exactly once. -/
theorem C6_cache_hit_no_delay (cache : String → Option String)
    (net : Nat → FetchOutcome) (url : String) (body : String) :
    (cache url = some body →
      fetchPage true cache net url =
        { body := some body, networkAttempts := 0, sleeps := [], cacheWrites := [] }) ∧
    (∀ b, cache url = none → (fetchPage true cache net url).body = some b →
      countPoliteness (fetchPage true cache net url).sleeps = 1) := by
  constructor
  · intro hhit
    simp [fetchPage, hhit]
  · intro b hmiss hbody
    simp only [fetchPage, hmiss, if_true] at hbody ⊢
    exact (fetchAttemptsFrom_politeness true net url MAX_RETRIES 0).1 (by simp [hbody])

theorem C6_cache_hit_no_delay_witness :
    (fetchPage true (fun u => if u = "a" then some "cached" else none)
        (fun _ => .success "fresh") "a" =
      { body := some "cached", networkAttempts := 0, sleeps := [], cacheWrites := [] }) ∧
    countPoliteness (fetchPage true (fun u => if u = "a" then some "cached" else none)
        (fun _ => .success "fresh") "b").sleeps = 1 :=
  ⟨(C6_cache_hit_no_delay (fun u => if u = "a" then some "cached" else none)
      (fun _ => .success "fresh") "a" "cached").1 rfl,
   (C6_cache_hit_no_delay (fun u => if u = "a" then some "cached" else none)
      (fun _ => .success "fresh") "b" "cached").2 "fresh" rfl rfl⟩

/-- C2 counterexample: a fetch whose every attempt fails with HTTP status 404
(a 4xx other than a rate-limit code) makes all 3 network attempts and sleeps
the backoff delays between them.  The claim says such a permanent client-side
failure fails immediately without consuming further retry attempts, which
would mean exactly 1 attempt and no backoff sleeps; `raise_for_status` turns
every 4xx and 5xx alike into a `RequestException` that the single `except`
branch retries. -/
theorem C2_counterexample :
    (fetchPage false (fun _ => none) (fun _ => .httpError 404) "u").networkAttempts = 3 ∧
    (fetchPage false (fun _ => none) (fun _ => .httpError 404) "u").networkAttempts ≠ 1 ∧
    (fetchPage false (fun _ => none) (fun _ => .httpError 404) "u").sleeps =
      [.backoff 1, .backoff 2] := by
  refine ⟨rfl, ?_, rfl⟩
  decide

/-- C2 (amended): the code does not classify failures; an HTTP client error
(any 4xx status, rate-limit or not) is retried exactly like a transient
failure, through all `MAX_RETRIES = 3` attempts with exponential backoff
between them, and the fetch then returns no body. -/
theorem C2_amended_uniform_retry (cache : String → Option String) (url : String)
    (s : Nat) (_h4 : 400 ≤ s) (_h4x : s < 500) (_hnr : s ≠ 429) :
    fetchPage false cache (fun _ => FetchOutcome.httpError s) url =
      { body := none, networkAttempts := 3,
        sleeps := [.backoff 1, .backoff 2], cacheWrites := [] } := by
  simp [fetchPage, fetchAttemptsFrom, FetchOutcome.body?, MAX_RETRIES, REQUEST_DELAY]

theorem C2_amended_uniform_retry_witness :
    fetchPage false (fun _ => none) (fun _ => FetchOutcome.httpError 404) "u" =
      { body := none, networkAttempts := 3,
        sleeps := [.backoff 1, .backoff 2], cacheWrites := [] } :=
  C2_amended_uniform_retry (fun _ => none) "u" 404 (by omega) (by omega) (by omega)

/-! ## Crawl engine lemmas -/

/-- Crawl loop invariant: the visited list stays duplicate-free, and the URLs
of the fetch log are exactly the visited list (a URL is marked visited at the
moment `scrape_page` is called on it, and only then). -/
theorem crawlLoop_visited_inv (scrapePg : String → Option PageData) (maxDepth : Nat) :
    ∀ fuel st, st.visited.Nodup → st.fetchLog.map Prod.fst = st.visited →
    ((crawlLoop scrapePg maxDepth fuel st).visited.Nodup ∧
     (crawlLoop scrapePg maxDepth fuel st).fetchLog.map Prod.fst =
       (crawlLoop scrapePg maxDepth fuel st).visited) := by
  intro fuel
  induction fuel with
  | zero => intro st h1 h2; exact ⟨h1, h2⟩
  | succ fuel ih =>
    intro st h1 h2
    rw [crawlLoop]
    cases hv : st.toVisit with
    | nil => exact ⟨h1, h2⟩
    | cons p rest =>
      obtain ⟨url, d⟩ := p
      by_cases hmem : url ∈ st.visited
      · simp only [if_pos hmem]
        exact ih _ h1 h2
      · simp only [if_neg hmem]
        by_cases hd : maxDepth < d
        · simp only [if_pos hd]
          exact ih _ h1 h2
        · simp only [if_neg hd]
          cases hs : scrapePg url with
          | none =>
            apply ih
            · simp [List.nodup_append, h1, hmem]
            · simp [h2]
          | some pg =>
            apply ih
            · simp [List.nodup_append, h1, hmem]
            · simp [h2]

/-- C1: in every crawl session each URL is fetched at most once — the fetch
log (one entry per `scrape_page` call, recorded together with the depth of
the frontier entry that triggered it) never repeats a URL, and consequently
no URL is fetched at two different depths, however many pages link to it. -/
theorem C1_fetch_at_most_once (scrapePg : String → Option PageData)
    (startUrl : String) (maxDepth fuel : Nat) :
    ((crawlRun scrapePg maxDepth startUrl fuel).fetchLog.map Prod.fst).Nodup ∧
    ∀ p ∈ (crawlRun scrapePg maxDepth startUrl fuel).fetchLog,
      ∀ q ∈ (crawlRun scrapePg maxDepth startUrl fuel).fetchLog,
        p.1 = q.1 → p.2 = q.2 := by
  obtain ⟨h1, h2⟩ := crawlLoop_visited_inv scrapePg maxDepth fuel
    { toVisit := [(startUrl, 0)], visited := [], scraped := []
      fetchLog := [], failedLog := [], enqueueLog := [] }
    (by simp) (by simp)
  have hnd : ((crawlRun scrapePg maxDepth startUrl fuel).fetchLog.map Prod.fst).Nodup := by
    rw [crawlRun, h2]; exact h1
  refine ⟨hnd, ?_⟩
  intro p hp q hq hfst
  have hpq : p = q := List.inj_on_of_nodup_map hnd hp hq hfst
  rw [hpq]

/-- Partition invariant carried by the crawl loop: visited URLs split into
the URLs of the scraped pages and the failed URLs. -/
def PartitionInv (st : CrawlState) : Prop :=
  st.visited.Nodup ∧
  (∀ pg ∈ st.scraped, pg.url ∈ st.visited) ∧
  (∀ u ∈ st.failedLog, u ∈ st.visited) ∧
  st.visited.length = st.scraped.length + st.failedLog.length ∧
  (st.scraped.map PageData.url).Nodup ∧
  (∀ pg ∈ st.scraped, pg.url ∉ st.failedLog)

theorem crawlLoop_partition (scrapePg : String → Option PageData)
    (hurl : ∀ u pg, scrapePg u = some pg → pg.url = u) (maxDepth : Nat) :
    ∀ fuel st, PartitionInv st → PartitionInv (crawlLoop scrapePg maxDepth fuel st) := by
  intro fuel
  induction fuel with
  | zero => intro st h; exact h
  | succ fuel ih =>
    intro st h
    obtain ⟨hnd, hsv, hfv, hlen, hsnd, hdisj⟩ := h
    rw [crawlLoop]
    cases hv : st.toVisit with
    | nil => exact ⟨hnd, hsv, hfv, hlen, hsnd, hdisj⟩
    | cons p rest =>
      obtain ⟨url, d⟩ := p
      by_cases hmem : url ∈ st.visited
      · simp only [if_pos hmem]
        exact ih _ ⟨hnd, hsv, hfv, hlen, hsnd, hdisj⟩
      · simp only [if_neg hmem]
        by_cases hd : maxDepth < d
        · simp only [if_pos hd]
          exact ih _ ⟨hnd, hsv, hfv, hlen, hsnd, hdisj⟩
        · simp only [if_neg hd]
          cases hs : scrapePg url with
          | none =>
            apply ih
            refine ⟨?_, ?_, ?_, ?_, ?_, ?_⟩
            · simp [List.nodup_append, hnd, hmem]
            · intro pg hpg
              simp only [List.mem_append]
              exact Or.inl (hsv pg hpg)
            · intro u hu
              simp only [List.mem_append, List.mem_singleton] at hu ⊢
              cases hu with
              | inl hu => exact Or.inl (hfv u hu)
              | inr hu => exact Or.inr hu
            · simp only [List.length_append, List.length_singleton]
              omega
            · exact hsnd
            · intro pg hpg
              simp only [List.mem_append, List.mem_singleton]
              rintro (hin | rfl)
              · exact hdisj pg hpg hin
              · exact hmem (hsv pg hpg)
          | some pg =>
            have hpgurl : pg.url = url := hurl url pg hs
            apply ih
            refine ⟨?_, ?_, ?_, ?_, ?_, ?_⟩
            · simp [List.nodup_append, hnd, hmem]
            · intro pg2 hpg2
              simp only [List.mem_append, List.mem_singleton] at hpg2 ⊢
              cases hpg2 with
              | inl hin => exact Or.inl (hsv pg2 hin)
              | inr heq => exact Or.inr (by rw [heq, hpgurl])
            · intro u hu
              simp only [List.mem_append]
              exact Or.inl (hfv u hu)
            · simp only [List.length_append, List.length_singleton]
              omega
            · simp only [List.map_append, List.map_cons, List.map_nil]
              rw [List.nodup_append]
              refine ⟨hsnd, by simp, ?_⟩
              intro a ha hb
              simp only [hpgurl, List.mem_singleton] at hb
              subst hb
              exact hmem (by
                simp only [List.mem_map] at ha
                obtain ⟨pg2, hpg2, hpg2url⟩ := ha
                exact hpg2url ▸ hsv pg2 hpg2)
            · intro pg2 hpg2
              simp only [List.mem_append, List.mem_singleton] at hpg2
              cases hpg2 with
              | inl hin => exact hdisj pg2 hin
              | inr heq => rw [heq, hpgurl]; intro hin; exact hmem (hfv url hin)

/-- C3 (amended): the crawl returns only the successfully built pages, in the
order they were popped; URLs whose scrape produced no page are silently
dropped and appear in no returned skip list.  Counting those failures with
the `failedLog` observation log, every visited URL lands in exactly one of
the two: `|visited| = |pages| + |failed|`, the page URLs are pairwise
distinct, and no URL is both a page URL and a failed URL. -/
theorem C3_amended_partition (scrapePg : String → Option PageData)
    (hurl : ∀ u pg, scrapePg u = some pg → pg.url = u)
    (startUrl : String) (maxDepth fuel : Nat) :
    (crawlRun scrapePg maxDepth startUrl fuel).visited.length =
      (crawlRun scrapePg maxDepth startUrl fuel).scraped.length +
      (crawlRun scrapePg maxDepth startUrl fuel).failedLog.length ∧
    ((crawlRun scrapePg maxDepth startUrl fuel).scraped.map PageData.url).Nodup ∧
    (∀ pg ∈ (crawlRun scrapePg maxDepth startUrl fuel).scraped,
      pg.url ∉ (crawlRun scrapePg maxDepth startUrl fuel).failedLog) := by
  have h := crawlLoop_partition scrapePg hurl maxDepth fuel
    { toVisit := [(startUrl, 0)], visited := [], scraped := []
      fetchLog := [], failedLog := [], enqueueLog := [] }
    (by refine ⟨by simp, by simp, by simp, by simp, by simp, by simp⟩)
  rw [crawlRun]
  exact ⟨h.2.2.2.1, h.2.2.2.2.1, h.2.2.2.2.2⟩

/-- A page built by `scrape_page` carries the URL it was fetched from. -/
theorem scrapePageWith_url (parse : String → Html) (fetch : String → Option String)
    (u : String) (pg : PageData) (h : scrapePageWith parse fetch u = some pg) :
    pg.url = u := by
  cases hf : fetch u with
  | none => simp [scrapePageWith, hf] at h
  | some html =>
    simp only [scrapePageWith, hf] at h
    by_cases he : html = ""
    · simp [he] at h
    · simp only [if_neg he, Option.some.injEq] at h
      rw [← h]

/-- Every page in the scraped list was produced by the scrape function at its
own URL. -/
theorem crawlLoop_scraped_sound (scrapePg : String → Option PageData)
    (hurl : ∀ u pg, scrapePg u = some pg → pg.url = u) (maxDepth : Nat) :
    ∀ fuel st, (∀ pg ∈ st.scraped, scrapePg pg.url = some pg) →
    ∀ pg ∈ (crawlLoop scrapePg maxDepth fuel st).scraped, scrapePg pg.url = some pg := by
  intro fuel
  induction fuel with
  | zero => intro st h; exact h
  | succ fuel ih =>
    intro st h
    rw [crawlLoop]
    cases hv : st.toVisit with
    | nil => exact h
    | cons p rest =>
      obtain ⟨url, d⟩ := p
      by_cases hmem : url ∈ st.visited
      · simp only [if_pos hmem]
        exact ih _ h
      · simp only [if_neg hmem]
        by_cases hd : maxDepth < d
        · simp only [if_pos hd]
          exact ih _ h
        · simp only [if_neg hd]
          cases hs : scrapePg url with
          | none => exact ih _ h
          | some pg =>
            apply ih
            intro pg2 hpg2
            simp only [List.mem_append, List.mem_singleton] at hpg2
            cases hpg2 with
            | inl hin => exact h pg2 hin
            | inr heq => rw [heq, hurl url pg hs]; exact hs

/-- C10: a fetch that succeeds with an empty raw body produces no page —
`scrape_page` returns `None` on the falsy empty string exactly as on a failed
fetch — and such a URL never contributes a page to any crawl result. -/
theorem C10_empty_body_no_page (parse : String → Html) (fetch : String → Option String)
    (url : String) (h : fetch url = some "") :
    scrapePageWith parse fetch url = none ∧
    ∀ startUrl maxDepth fuel,
      url ∉ ((crawlRun (scrapePageWith parse fetch) maxDepth startUrl fuel).scraped.map
        PageData.url) := by
  have hnone : scrapePageWith parse fetch url = none := by
    simp [scrapePageWith, h]
  refine ⟨hnone, ?_⟩
  intro startUrl maxDepth fuel hin
  simp only [List.mem_map] at hin
  obtain ⟨pg, hpg, hpgurl⟩ := hin
  have := crawlLoop_scraped_sound (scrapePageWith parse fetch)
    (fun u pg h => scrapePageWith_url parse fetch u pg h) maxDepth fuel
    { toVisit := [(startUrl, 0)], visited := [], scraped := []
      fetchLog := [], failedLog := [], enqueueLog := [] }
    (by simp) pg (by rw [crawlRun] at hpg; exact hpg)
  rw [hpgurl, hnone] at this
  exact Option.noConfusion this

theorem C10_empty_body_no_page_witness :
    scrapePageWith (fun _ => Html.text "") (fun _ => some "") "u" = none ∧
    "u" ∉ (((crawlRun (scrapePageWith (fun _ => Html.text "") (fun _ => some "")) 0 "s" 2).scraped).map
      PageData.url) :=
  ⟨(C10_empty_body_no_page (fun _ => Html.text "") (fun _ => some "") "u" rfl).1,
   (C10_empty_body_no_page (fun _ => Html.text "") (fun _ => some "") "u" rfl).2 "s" 0 2⟩

/-! ## Concrete crawl fixture

A four-page world under the documentation prefix: the start page links to two
pages, one of which links to a fourth.  The parser oracle maps each raw body
to its parsed tree. -/

def urlA : String := BASE_URL ++ "/a"
def urlB : String := BASE_URL ++ "/b"
def urlC : String := BASE_URL ++ "/c"
def urlD : String := BASE_URL ++ "/d"

def mkAnchor (u : String) : Html := .elem "a" [("href", u)] [.text "link"]

def pageA : Html := .elem "body" [] [.elem "h1" [] [.text "Page A"], mkAnchor urlB, mkAnchor urlC]
def pageB : Html := .elem "body" [] [.elem "h1" [] [.text "Page B"], mkAnchor urlD]
def pageC : Html := .elem "body" [] [.elem "h1" [] [.text "Page C"]]

def parseFix : String → Html := fun s =>
  if s = "A" then pageA else if s = "B" then pageB else if s = "C" then pageC else .text ""

def fetchFix : String → Option String := fun u =>
  if u = urlA then some "A" else if u = urlB then some "B"
  else if u = urlC then some "C" else if u = urlD then some "D" else none

/-- C4: with `maxDepth = 1`, start page A linking to B and C, and B linking
to D, exactly A, B and C are fetched (in breadth-first order, at depths 0, 1
and 1), D is discovered on B but is never fetched and never enqueued on the
frontier, the crawl terminates with an empty frontier, and the result holds
exactly 3 pages. -/
theorem C4_depth_one_scenario :
    (crawlRun (scrapePageWith parseFix fetchFix) 1 urlA 10).fetchLog =
      [(urlA, 0), (urlB, 1), (urlC, 1)] ∧
    urlD ∉ ((crawlRun (scrapePageWith parseFix fetchFix) 1 urlA 10).fetchLog.map Prod.fst) ∧
    urlD ∉ ((crawlRun (scrapePageWith parseFix fetchFix) 1 urlA 10).enqueueLog.map Prod.fst) ∧
    (crawlRun (scrapePageWith parseFix fetchFix) 1 urlA 10).toVisit = [] ∧
    (crawlRun (scrapePageWith parseFix fetchFix) 1 urlA 10).scraped.length = 3 ∧
    urlD ∈ extractLinks pageB urlB := by
  decide

/-- C3 counterexample: with the start URL failing to fetch, the crawl visits
one URL but `scrape_topic` returns an empty list and nothing else — the
returned result consists of the pages only, with no skip component, so the
visited URL appears in neither part of the claimed result and
`|visited| = |pages| + |skipped|` fails for the value the code returns
(1 visited versus 0 recorded). -/
theorem C3_counterexample :
    (crawlRun (scrapePageWith parseFix (fun _ => none)) 1 urlA 5).visited = [urlA] ∧
    scrapeTopic (scrapePageWith parseFix (fun _ => none)) "a" 1 5 = [] ∧
    (crawlRun (scrapePageWith parseFix (fun _ => none)) 1 urlA 5).visited.length ≠
      (scrapeTopic (scrapePageWith parseFix (fun _ => none)) "a" 1 5).length := by
  decide

theorem C3_amended_partition_witness :
    (crawlRun (scrapePageWith parseFix fetchFix) 1 urlA 10).visited.length =
      (crawlRun (scrapePageWith parseFix fetchFix) 1 urlA 10).scraped.length +
      (crawlRun (scrapePageWith parseFix fetchFix) 1 urlA 10).failedLog.length :=
  (C3_amended_partition (scrapePageWith parseFix fetchFix)
    (fun u pg h => scrapePageWith_url parseFix fetchFix u pg h) urlA 1 10).1

/-! ## Document converter claims -/

/-- The tags the converter dispatches on before reaching the default
plain-text case. -/
def DISPATCH_TAGS : List String :=
  HEADING_TAGS ++ ["p", "pre", "ul", "ol", "table", "a", "img", "blockquote"] ++ CONTAINER_TAGS

/-- C7: the conversion is total by construction (`processElement` is a total
function on every markup tree), and any element whose tag is outside the
dispatched set — and which is not an inline-code element outside `pre` —
degrades to the plain text of its stripped prose: the element contributes
exactly one plain-text line when that text is non-empty and nothing
otherwise, never an error. -/
theorem C7_unrecognized_degrades (parentTag tag : String) (attrs : List (String × String))
    (cs : List Html) (lines : List String) (baseUrl : String)
    (hTag : tag ∉ DISPATCH_TAGS)
    (hCode : ¬(tag = "code" ∧ parentTag ≠ "pre")) :
    processElement parentTag (.elem tag attrs cs) lines baseUrl =
      if pyStrip (getText (.elem tag attrs cs)) ≠ ""
      then lines ++ [pyStrip (getText (.elem tag attrs cs))]
      else lines := by
  rw [processElement]
  simp only [DISPATCH_TAGS, List.mem_append] at hTag
  push_neg at hTag
  obtain ⟨⟨hHead, hMid⟩, hCont⟩ := hTag
  simp only [List.mem_cons, List.not_mem_nil, or_false, not_or] at hMid
  obtain ⟨hP, hPre, hUl, hOl, hTable, hA, hImg, hBq⟩ := hMid
  have hDiv : tag ≠ "div" := fun h => hCont (by simp [CONTAINER_TAGS, h])
  simp [hHead, hP, hPre, hCode, hUl, hOl, hTable, hA, hImg, hBq, hDiv, hCont]

theorem C7_unrecognized_degrades_witness :
    processElement "body" (.elem "figure" [] [.text "  hello  "]) [] "base" = ["hello"] :=
  (C7_unrecognized_degrades "body" "figure" [] [.text "  hello  "] [] "base"
    (by decide) (by decide)).trans (by decide)

def fixTable : Html := .elem "table" [] [
  .elem "tr" [] [.elem "th" [] [.text "H1"], .elem "th" [] [.text "H2"],
                 .elem "th" [] [.text "H3"], .elem "th" [] [.text "H4"]],
  .elem "tr" [] [.elem "td" [] [.text "a1"], .elem "td" [] [.text "a2"],
                 .elem "td" [] [.text "a3"]],
  .elem "tr" [] [.elem "td" [] [.text "b1"], .elem "td" [] [.text "b2"],
                 .elem "td" [] [.text "b3"], .elem "td" [] [.text "b4"]]]

/-- Number of cells in an emitted markdown table row (pipes minus one). -/
def mdRowCellCount (line : String) : Nat :=
  (line.data.countP (fun c => c = '|')) - 1

/-- C9: a source table of one header row with 4 cells and two body rows, one
of them with only 3 cells, converts with the headers kept at length 4 and the
short row kept at length 3 — rows pass through ragged, neither padded nor
truncated to the header length. -/
theorem C9_table_passthrough :
    processTable fixTable [] =
      ["", "| H1 | H2 | H3 | H4 |", "| --- | --- | --- | --- |",
       "| a1 | a2 | a3 |", "| b1 | b2 | b3 | b4 |", ""] ∧
    mdRowCellCount "| H1 | H2 | H3 | H4 |" = 4 ∧
    mdRowCellCount "| a1 | a2 | a3 |" = 3 ∧
    mdRowCellCount "| b1 | b2 | b3 | b4 |" = 4 := by
  decide

/-! ## Link extractor claims -/

/-- Whether `u` falls under the URL prefix `p`. -/
def underPrefix (u p : String) : Bool := p.data.isPrefixOf u.data

def evilUrl : String := "https://evil.com/documentation/en-us/unreal-engine/dev.epicgames.com/documentation"
def evilDoc : Html := .elem "body" [] [mkAnchor evilUrl]

/-- C8 counterexample: an anchor to a URL on a foreign host passes the
extractor, because the in-scope test is a substring containment
(`"dev.epicgames.com/documentation" in full_url`), not a prefix test: the
extracted URL does not fall under the configured allowed prefix (the
documentation base URL), nor even under the documentation host. -/
theorem C8_counterexample :
    extractLinks evilDoc (BASE_URL ++ "/topic") = [evilUrl] ∧
    underPrefix evilUrl BASE_URL = false ∧
    underPrefix evilUrl "https://dev.epicgames.com" = false := by
  decide

/-- A URL as the extractor emits it: some resolved reference that contains
the documentation substring, with fragment and query stripped. -/
def inScopeCleaned (u : String) : Prop :=
  ∃ full, u = takeBefore (takeBefore full '#') '?' ∧
    strContains full "dev.epicgames.com/documentation" = true

theorem takeBefore_no_sep (full : String) (sep : Char) :
    ∀ c ∈ (takeBefore full sep).data, c ≠ sep := by
  intro c hc
  simp only [takeBefore] at hc
  have := List.mem_takeWhile_imp hc
  simpa using this

theorem takeBefore_sub (full : String) (sep : Char) :
    ∀ c ∈ (takeBefore full sep).data, c ∈ full.data := by
  intro c hc
  simp only [takeBefore] at hc
  exact (List.takeWhile_prefix _).subset hc

theorem inScopeCleaned_clean (u : String) (h : inScopeCleaned u) :
    ∀ c ∈ u.data, c ≠ '#' ∧ c ≠ '?' := by
  obtain ⟨full, rfl, _⟩ := h
  intro c hc
  refine ⟨?_, takeBefore_no_sep _ _ c hc⟩
  exact takeBefore_no_sep full '#' c (takeBefore_sub _ '?' c hc)

theorem extractLinksFrom_inv (base : String) :
    ∀ hrefs acc, acc.Nodup → (∀ u ∈ acc, inScopeCleaned u) →
    ((extractLinksFrom base hrefs acc).Nodup ∧
     ∀ u ∈ extractLinksFrom base hrefs acc, inScopeCleaned u) := by
  intro hrefs
  induction hrefs with
  | nil => intro acc h1 h2; exact ⟨h1, h2⟩
  | cons href rest ih =>
    intro acc h1 h2
    rw [extractLinksFrom]
    by_cases hc1 : (strContains href "/documentation/en-us/unreal-engine" || strStartsWith href "/") = true
    · simp only [hc1, if_true]
      by_cases hc2 : strContains (urljoin base href) "dev.epicgames.com/documentation" = true
      · simp only [hc2, if_true]
        by_cases hc3 : takeBefore (takeBefore (urljoin base href) '#') '?' ∈ acc
        · simp only [if_pos hc3]
          exact ih acc h1 h2
        · simp only [if_neg hc3]
          apply ih
          · simp [List.nodup_append, h1, hc3]
          · intro u hu
            simp only [List.mem_append, List.mem_singleton] at hu
            cases hu with
            | inl hin => exact h2 u hin
            | inr heq => exact ⟨urljoin base href, heq, hc2⟩
      · simp only [hc2, if_false]
        exact ih acc h1 h2
    · simp only [hc1, if_false]
      exact ih acc h1 h2

/-- C8 (amended): the in-scope filter of the extractor is a substring
containment test on the resolved URL before fragment/query stripping — not a
prefix test, so URLs outside the allowed prefix can be emitted — and the
output is duplicate-free, with every entry being some resolved reference
containing `dev.epicgames.com/documentation`, stripped of its fragment and
query (no `#` or `?` survives in any output URL). -/
theorem C8_amended_scope_substring (doc : Html) (base : String) :
    (extractLinks doc base).Nodup ∧
    ∀ u ∈ extractLinks doc base,
      (∀ c ∈ u.data, c ≠ '#' ∧ c ≠ '?') ∧
      ∃ full, u = takeBefore (takeBefore full '#') '?' ∧
        strContains full "dev.epicgames.com/documentation" = true := by
  obtain ⟨h1, h2⟩ := extractLinksFrom_inv base (anchorHrefs doc) [] (by simp) (by simp)
  exact ⟨h1, fun u hu => ⟨inScopeCleaned_clean u (h2 u hu), h2 u hu⟩⟩

end UEDocs
